import Mathlib

/-!
Shallow embedding of the `dracory/omni` atom library (Go) and verification of
its specification claims.

The embedding follows the Go sources:
- `src/atom.go`       : the `Atom` node, its property and children operations,
                        `ToMap`, `ToGob`;
- `src/functions.go`  : `MapToAtom`, `isValidAtomMap`, `JSONToAtoms`,
                        `GobToAtom`, `isValidAtomGob`;
- `src/find_atoms_by_type.go` : `FindAtomsByType`.

Modelling conventions:
- Go `nil` interface values / `nil` maps are modelled with `Option`;
- Go `map[string]string` is modelled as an association list (`PropMap`) with
  unique keys maintained by the operations; Go map iteration order is not
  semantically relevant to any verified statement;
- Go `map[string]any` values (as produced by `encoding/json`) are modelled by
  the inductive type `Value`;
- fallible Go functions returning `(T, error)` are modelled with
  `Except String T`.
-/

namespace Omni

/-- Association list standing in for Go's `map[string]string`. -/
abbrev PropMap := List (String × String)

/-- Map lookup: the value stored for `k`, if any (Go `m[k]` two-result form). -/
def PropMap.lookup : PropMap → String → Option String
  | [], _ => none
  | (k', v) :: rest, k => if k' = k then some v else PropMap.lookup rest k

/-- Map update, Go `m[k] = v`: replaces the binding of `k` if present,
otherwise appends it. -/
def PropMap.insert : PropMap → String → String → PropMap
  | [], k, v => [(k, v)]
  | (k', v') :: rest, k, v =>
      if k' = k then (k, v) :: rest else (k', v') :: PropMap.insert rest k v

/-- Map deletion, Go `delete(m, k)`. -/
def PropMap.erase : PropMap → String → PropMap
  | [], _ => []
  | (k', v') :: rest, k =>
      if k' = k then PropMap.erase rest k else (k', v') :: PropMap.erase rest k

/-- The node type of `src/atom.go`:

```go
type Atom struct {
    id         string
    atomType   string
    properties map[string]string
    children   []AtomInterface
    mu         sync.RWMutex
}
```

`properties` may be a nil map (`Option PropMap`); entries of the `children`
slice are interface values which may be nil (`Option Atom`).  The mutex only
serialises access and has no sequential meaning, so it is not modelled. -/
inductive Atom where
  | mk : (id : String) → (atomType : String) →
         (properties : Option PropMap) → (children : List (Option Atom)) → Atom
deriving Repr

/-- Field accessor for `id` (Go `GetID`). -/
def Atom.id : Atom → String
  | .mk i _ _ _ => i

/-- Field accessor for `atomType` (Go `GetType`). -/
def Atom.atomType : Atom → String
  | .mk _ t _ _ => t

/-- Field accessor for `properties`. -/
def Atom.properties : Atom → Option PropMap
  | .mk _ _ p _ => p

/-- Field accessor for `children`. -/
def Atom.children : Atom → List (Option Atom)
  | .mk _ _ _ c => c

/-- `Atom.Get` (src/atom.go:139): value for `key`, `""` if the key is absent
or the property store is the nil map. -/
def Atom.get (a : Atom) (key : String) : String :=
  match a.properties with
  | none => ""
  | some m => (PropMap.lookup m key).getD ""

/-- `Atom.Has` (src/atom.go:128). -/
def Atom.has (a : Atom) (key : String) : Bool :=
  match a.properties with
  | none => false
  | some m => (PropMap.lookup m key).isSome

/-- `Atom.Set` (src/atom.go:157): upsert, creating the property store lazily. -/
def Atom.set (a : Atom) (key value : String) : Atom :=
  match a with
  | .mk i t p c =>
      .mk i t (some (PropMap.insert (p.getD []) key value)) c

/-- `Atom.Remove` (src/atom.go:149): `delete` on the property map
(a no-op on a nil map). -/
def Atom.remove (a : Atom) (key : String) : Atom :=
  match a with
  | .mk i t p c =>
      match p with
      | none => .mk i t none c
      | some m => .mk i t (some (PropMap.erase m key)) c

/-- `Atom.GetAll` (src/atom.go:168): `nil` when the store is nil, otherwise a
fresh copy of the map (the copy aspect is verified separately with the
heap-based model below). -/
def Atom.getAll (a : Atom) : Option PropMap :=
  a.properties

/-- `Atom.SetAll` (src/atom.go:182): replaces the store wholesale. -/
def Atom.setAll (a : Atom) (props : Option PropMap) : Atom :=
  match a with
  | .mk i t _ c => .mk i t props c

/-- `Atom.ChildAdd` (src/atom.go:191): appends one child; nil is a no-op. -/
def Atom.childAdd (a : Atom) (child : Option Atom) : Atom :=
  match child with
  | none => a
  | some c =>
      match a with
      | .mk i t p cs => .mk i t p (cs ++ [some c])

/-- `Atom.ChildrenAdd` (src/atom.go:227): appends the whole slice
(`a.children = append(a.children, children...)`) — note: no nil filtering. -/
def Atom.childrenAdd (a : Atom) (children : List (Option Atom)) : Atom :=
  match a with
  | .mk i t p cs => .mk i t p (cs ++ children)

/-- `Atom.ChildrenGet` (src/atom.go:235): a copy of the children slice (the
copy aspect is verified separately with the heap-based model below). -/
def Atom.childrenGet (a : Atom) : List (Option Atom) :=
  a.children

/-- `Atom.ChildrenLength` (src/atom.go:244). -/
def Atom.childrenLength (a : Atom) : Nat :=
  a.children.length

/-- `Atom.ChildrenSet` (src/atom.go:252): filters out nil children, then
replaces the slice wholesale. -/
def Atom.childrenSet (a : Atom) (children : List (Option Atom)) : Atom :=
  match a with
  | .mk i t p _ => .mk i t p (children.filter Option.isSome)

mutual

/-- `FindAtomsByType` (src/find_atoms_by_type.go): nil root yields `[]`;
otherwise the root is checked first (pre-order) and then the results of the
recursive calls on the children, left to right, are appended. -/
def findAtomsByType : Option Atom → String → List Atom
  | none, _ => []
  | some (.mk i t p cs), atomType =>
      (if t = atomType then [Atom.mk i t p cs] else []) ++
        findAtomsInChildren cs atomType

/-- The `for _, child := range root.ChildrenGet()` loop of `FindAtomsByType`:
appends the recursive result for each child in order. -/
def findAtomsInChildren : List (Option Atom) → String → List Atom
  | [], _ => []
  | c :: cs, atomType =>
      findAtomsByType c atomType ++ findAtomsInChildren cs atomType

end

mutual

/-- Pre-order listing of a tree's atoms, written from the spec's description
of the traversal ("visit a node before any of its descendants, then recurse
into children left-to-right"); used to state what `FindAtomsByType` returns. -/
def preorder : Atom → List Atom
  | .mk i t p cs => Atom.mk i t p cs :: preorderChildren cs

/-- Pre-order listing of a forest of optional atoms, left to right. -/
def preorderChildren : List (Option Atom) → List Atom
  | [] => []
  | none :: cs => preorderChildren cs
  | some c :: cs => preorder c ++ preorderChildren cs

end

/-- Leaf `a1` of the spec's example tree, of the searched type. -/
def a1Sample : Atom := Atom.mk "a1" "target" none []

/-- Leaf `a2` of the spec's example tree, of another type. -/
def a2Sample : Atom := Atom.mk "a2" "node" none []

/-- Inner node `a` of the spec's example tree, with children `a1, a2`. -/
def aSample : Atom := Atom.mk "a" "node" none [some a1Sample, some a2Sample]

/-- Leaf `b1` of the spec's example tree, of the searched type. -/
def b1Sample : Atom := Atom.mk "b1" "target" none []

/-- Inner node `b` of the spec's example tree, of the searched type,
with child `b1`. -/
def bSample : Atom := Atom.mk "b" "target" none [some b1Sample]

/-- Root of the spec's example tree `root -> [a -> [a1, a2], b -> [b1]]`. -/
def rootSample : Atom := Atom.mk "root" "root" none [some aSample, some bSample]

/-- Go `any` values as they occur in `map[string]any` atom maps (the shapes
`encoding/json` produces, plus programmatic ints): strings, integers,
booleans, nil, nested maps and slices.  Floats and `fmt.Stringer`
implementors are outside the model; no claim depends on them. -/
inductive Value where
  | vStr : String → Value
  | vInt : Int → Value
  | vBool : Bool → Value
  | vNull : Value
  | vMap : List (String × Value) → Value
  | vList : List Value → Value
deriving Repr

/-- Association list standing in for Go's `map[string]any`. -/
abbrev AMap := List (String × Value)

/-- Lookup in a `map[string]any` (Go `m[k]` with presence). -/
def AMap.lookup : AMap → String → Option Value
  | [], _ => none
  | (k', v) :: rest, k => if k' = k then some v else AMap.lookup rest k

mutual

/-- Models `fmt.Sprintf("%v", v)` from the Go standard library: strings
verbatim, integers in decimal, booleans as `true`/`false`, nil as `<nil>`;
the rendering of composite values (maps, slices) is approximated — no
theorem relies on the exact text produced for a composite value. -/
def goFormat : Value → String
  | .vStr s => s
  | .vInt n => toString n
  | .vBool b => if b then "true" else "false"
  | .vNull => "<nil>"
  | .vMap l => "map[" ++ goFormatEntries l ++ "]"
  | .vList l => "[" ++ goFormatElems l ++ "]"

/-- `%v` rendering of map entries, space separated. -/
def goFormatEntries : List (String × Value) → String
  | [] => ""
  | [(k, v)] => k ++ ":" ++ goFormat v
  | (k, v) :: rest => k ++ ":" ++ goFormat v ++ " " ++ goFormatEntries rest

/-- `%v` rendering of slice elements, space separated. -/
def goFormatElems : List Value → String
  | [] => ""
  | [v] => goFormat v
  | v :: rest => goFormat v ++ " " ++ goFormatElems rest

end

/-- The `switch v := v.(type)` of `MapToAtom` (src/functions.go:219-227 and
234-242): a string is used verbatim, anything else goes through
`fmt.Sprintf("%v", v)` (the `fmt.Stringer` case cannot arise for the plain
data values of the model). -/
def stringifyAny : Value → String
  | .vStr s => s
  | v => goFormat v

/-- The Go type-switch whitelist of `isValidAtomMap` (src/functions.go:677-678):
strings, integers of every width, floats and booleans are accepted as
property values; everything else (maps, slices, nil) is rejected. -/
def isScalarValue : Value → Bool
  | .vStr _ => true
  | .vInt _ => true
  | .vBool _ => true
  | _ => false

/-- `NewAtom` (src/unnamed/part_000): type from the argument, id from the
`WithID` option when it sets a non-empty id, otherwise the generated
`uid.HumanUid()` — modelled as the parameter `gen`, since id generation is an
external collaborator.  The property store starts as an empty (non-nil) map
and the child list empty. -/
def newAtom (atomType : String) (idOpt : Option String) (gen : String) : Atom :=
  let provided := idOpt.getD ""
  Atom.mk (if provided = "" then gen else provided) atomType (some []) []

/-- The nested-properties loop of `MapToAtom` (src/functions.go:215-229):
each value of the `properties` submap is stringified and stored. -/
def collectProps (pm : List (String × Value)) : PropMap :=
  pm.foldl (fun acc kv => PropMap.insert acc kv.1 (stringifyAny kv.2)) []

/-- The backward-compatibility loop of `MapToAtom` (src/functions.go:232-245):
every top-level key outside `{id, type, properties, children}` is stringified
and stored as a property, over the properties collected so far. -/
def collectTopLevel (m : AMap) (acc : PropMap) : PropMap :=
  m.foldl
    (fun acc kv =>
      if kv.1 = "id" ∨ kv.1 = "type" ∨ kv.1 = "properties" ∨ kv.1 = "children"
      then acc
      else PropMap.insert acc kv.1 (stringifyAny kv.2))
    acc

mutual

/-- `MapToAtom` (src/functions.go:188-272).  A nil map is an error; `type`
and `id` are read by string type-assertion (`""` on absence or wrong type);
a missing/empty `type` is an error while a missing `id` merely leads to a
generated one; properties come from the nested `properties` map and from
backward-compatibility top-level keys; children maps are converted
recursively (non-map children are skipped); finally an atom whose type is
empty is rejected. -/
def mapToAtom (gen : String) : Option AMap → Except String Atom
  | none => .error "atom map cannot be nil"
  | some m =>
      let atomType := match AMap.lookup m "type" with
        | some (.vStr s) => s
        | _ => ""
      let id := match AMap.lookup m "id" with
        | some (.vStr s) => s
        | _ => ""
      if atomType = "" then
        .error "missing required 'type' field in atom map"
      else
        let atom := if id ≠ "" then newAtom atomType (some id) gen
                    else newAtom atomType none gen
        let props0 : PropMap :=
          match AMap.lookup m "properties" with
          | some (.vMap pm) => if 0 < pm.length then collectProps pm else []
          | _ => []
        let props := collectTopLevel m props0
        let atom := if 0 < props.length then atom.setAll (some props) else atom
        match _h : AMap.lookup m "children" with
        | some (.vList l) =>
            if 0 < l.length then
              match mapToAtomChildren gen l atom with
              | .error e => .error e
              | .ok a =>
                  if a.atomType = "" then
                    .error "missing required 'type' field in atom map"
                  else .ok a
            else
              if atom.atomType = "" then
                .error "missing required 'type' field in atom map"
              else .ok atom
        | _ =>
            if atom.atomType = "" then
              .error "missing required 'type' field in atom map"
            else .ok atom
termination_by om => sizeOf om
decreasing_by
  simp_wf
  have hsub : ∀ (mm : AMap) (v : Value),
      AMap.lookup mm "children" = some v → sizeOf v < sizeOf mm := by
    intro mm
    induction mm with
    | nil => intro v hv; simp [AMap.lookup] at hv
    | cons hd tl ih =>
        intro v hv
        obtain ⟨k', v'⟩ := hd
        by_cases hk : k' = "children"
        · simp [AMap.lookup, hk] at hv
          subst hv
          simp
          omega
        · simp [AMap.lookup, hk] at hv
          have := ih v hv
          simp
          omega
  have := hsub m _ _h
  simp at this
  omega

/-- The children loop of `MapToAtom` (src/functions.go:253-264): each child
that is a map is converted recursively (an error aborts the whole
conversion) and added with `ChildAdd`; non-map children are skipped. -/
def mapToAtomChildren (gen : String) : List Value → Atom → Except String Atom
  | [], a => .ok a
  | (.vMap cm) :: rest, a =>
      match mapToAtom gen (some cm) with
      | .error e => .error ("failed to create child atom: " ++ e)
      | .ok child => mapToAtomChildren gen rest (a.childAdd (some child))
  | _ :: rest, a => mapToAtomChildren gen rest a
termination_by l _ => sizeOf l
decreasing_by
  all_goals simp_wf <;> omega

end

/-- The allowed top-level keys of an atom map
(`case "id", "type", "properties", "children"` in src/functions.go:659). -/
def allowedTopLevelKey (k : String) : Bool :=
  k == "id" || k == "type" || k == "properties" || k == "children"

/-- The top-level key loop of `isValidAtomMap` (src/functions.go:657-665):
the first key outside the allowed set fails the validation. -/
def checkTopLevelKeys : AMap → Except String Unit
  | [] => .ok ()
  | (k, _) :: rest =>
      if allowedTopLevelKey k then checkTopLevelKeys rest
      else .error ("invalid top-level key '" ++ k ++
        "' in atom map, only 'id', 'type', 'properties', and 'children' are allowed")

/-- The required-field checks of `isValidAtomMap` (src/functions.go:646-654):
`id` and `type` must both be present as non-empty strings. -/
def checkIdType (m : AMap) : Except String Unit :=
  match AMap.lookup m "id" with
  | some (.vStr i) =>
      if i = "" then .error "atom map must contain a non-empty string 'id' field"
      else
        match AMap.lookup m "type" with
        | some (.vStr t) =>
            if t = "" then .error "atom map must contain a non-empty string 'type' field"
            else .ok ()
        | _ => .error "atom map must contain a non-empty string 'type' field"
  | _ => .error "atom map must contain a non-empty string 'id' field"

/-- The property-value loop of `isValidAtomMap` (src/functions.go:675-684):
every value must be of a string-convertible scalar type. -/
def checkPropValues : List (String × Value) → Except String Unit
  | [] => .ok ()
  | (k, v) :: rest =>
      if isScalarValue v then checkPropValues rest
      else .error ("property '" ++ k ++
        "' in properties map has invalid type, must be string or convertible to string")

/-- The `properties` shape check of `isValidAtomMap` (src/functions.go:668-685):
absent or nil is fine; otherwise it must be a map of scalars. -/
def checkPropsShape (m : AMap) : Except String Unit :=
  match AMap.lookup m "properties" with
  | none => .ok ()
  | some .vNull => .ok ()
  | some (.vMap pm) => checkPropValues pm
  | some _ => .error "properties must be a map[string]any"

mutual

/-- `isValidAtomMap` (src/functions.go:640-711): requires non-empty string
`id` and `type`, only the four allowed top-level keys, scalar property values
and a `children` slice whose non-nil entries are themselves valid atom maps,
recursively. -/
def isValidAtomMap : Option AMap → Except String Unit
  | none => .error "atom map cannot be nil"
  | some m =>
      match checkIdType m with
      | .error e => .error e
      | .ok () =>
          match checkTopLevelKeys m with
          | .error e => .error e
          | .ok () =>
              match checkPropsShape m with
              | .error e => .error e
              | .ok () =>
                  match _h : AMap.lookup m "children" with
                  | none => .ok ()
                  | some .vNull => .ok ()
                  | some (.vList l) => checkChildrenList l
                  | some _ => .error "atom children must be a slice"
termination_by om => sizeOf om
decreasing_by
  simp_wf
  have hsub : ∀ (mm : AMap) (v : Value),
      AMap.lookup mm "children" = some v → sizeOf v < sizeOf mm := by
    intro mm
    induction mm with
    | nil => intro v hv; simp [AMap.lookup] at hv
    | cons hd tl ih =>
        intro v hv
        obtain ⟨k', v'⟩ := hd
        by_cases hk : k' = "children"
        · simp [AMap.lookup, hk] at hv
          subst hv
          simp
          omega
        · simp [AMap.lookup, hk] at hv
          have := ih v hv
          simp
          omega
  have := hsub m _ _h
  simp at this
  omega

/-- The children loop of `isValidAtomMap` (src/functions.go:688-708): nil
entries are skipped, non-map entries fail, map entries are validated
recursively. -/
def checkChildrenList : List Value → Except String Unit
  | [] => .ok ()
  | .vNull :: rest => checkChildrenList rest
  | .vMap cm :: rest =>
      match isValidAtomMap (some cm) with
      | .error e => .error ("invalid child: " ++ e)
      | .ok () => checkChildrenList rest
  | _ :: _ => .error "child is not a valid atom map"
termination_by l => sizeOf l
decreasing_by
  all_goals simp_wf <;> omega

end

/-- The copy loop of `ToMap` (src/atom.go:341-346): the properties minus the
reserved keys `id` and `type` (a nil map yields no entries). -/
def propsWithoutReserved : Option PropMap → PropMap
  | none => []
  | some m => m.filter (fun kv => !(kv.1 == "id") && !(kv.1 == "type"))

mutual

/-- `Atom.ToMap` (src/atom.go:336-369): a map with `id`, `type`, the
recursively converted non-nil children (always present), and `properties`
only when the reserved-key-free property copy is non-empty. -/
def Atom.toMap : Atom → AMap
  | .mk i t p cs =>
      let props := propsWithoutReserved p
      let base : AMap :=
        [("id", .vStr i), ("type", .vStr t), ("children", .vList (toMapChildren cs))]
      if 0 < props.length then
        base ++ [("properties", .vMap (props.map (fun kv => (kv.1, Value.vStr kv.2))))]
      else base

/-- The children loop of `ToMap` (src/atom.go:349-354): nil children are
skipped, the rest are converted recursively, in order. -/
def toMapChildren : List (Option Atom) → List Value
  | [] => []
  | none :: cs => toMapChildren cs
  | some c :: cs => Value.vMap (Atom.toMap c) :: toMapChildren cs

end

/-- Values of the fields of a gob-encoded atom stream: the field types that
occur in the temporary structs of `ToGob` (src/atom.go:304-314) and
`GobToAtom` (src/functions.go:482-486): strings, a possibly-nil
`map[string]string`, and a `[][]byte` of child encodings (a nil/empty byte
slice modelled as `none`). -/
inductive GobValue where
  | gStr : String → GobValue
  | gStrMap : Option PropMap → GobValue
  | gBytesList : List (Option (List (String × GobValue))) → GobValue
deriving Repr

/-- A gob-encoded struct: the named fields of the wire stream.  `encoding/gob`
matches fields between sender and receiver by name; receiver fields absent
from the stream keep their zero value, stream fields unknown to the receiver
are dropped.  (Gob also omits zero-valued fields on the wire; the model lists
every field — immaterial here, since decoding is by-name lookup with a
zero-value default either way.) -/
abbrev GobStream := List (String × GobValue)

/-- Field lookup in a gob stream (the by-name field matching of gob decode). -/
def GobStream.lookup : GobStream → String → Option GobValue
  | [], _ => none
  | (k', v) :: rest, k => if k' = k then some v else GobStream.lookup rest k

mutual

/-- `Atom.ToGob` (src/atom.go:287-329): encodes the temporary struct
`{ID, Type, Properties, Children}` where `Children` holds the recursively
gob-encoded children (nil children leave nil byte slices). -/
def Atom.toGob : Atom → GobStream
  | .mk i t p cs =>
      [("ID", .gStr i), ("Type", .gStr t), ("Properties", .gStrMap p),
       ("Children", .gBytesList (toGobChildren cs))]

/-- The children loop of `ToGob` (src/atom.go:292-301). -/
def toGobChildren : List (Option Atom) → List (Option GobStream)
  | [] => []
  | none :: cs => none :: toGobChildren cs
  | some c :: cs => some (Atom.toGob c) :: toGobChildren cs

end

/-- The gob decode of `GobToAtom`/`isValidAtomGob` into the temporary struct
`{Data map[string]string; Children [][]byte}` (src/functions.go:482-486 and
538-541): fields are matched by name, absent fields keep their zero value
(nil map, nil slice). -/
def decodeGobTemp (g : GobStream) : Option PropMap × List (Option GobStream) :=
  (match GobStream.lookup g "Data" with
    | some (.gStrMap m) => m
    | _ => none,
   match GobStream.lookup g "Children" with
    | some (.gBytesList l) => l
    | _ => [])

mutual

/-- `isValidAtomGob` (src/functions.go:532-572): empty data is invalid; the
decoded `Data` map must be non-nil, its `type` entry non-empty, its `id`
entry non-empty when present, and every child must validate recursively. -/
def isValidAtomGob : Option GobStream → Except String Unit
  | none => .error "cannot validate empty data"
  | some g =>
      match _h : decodeGobTemp g with
      | (none, _) => .error "data map cannot be nil"
      | (some d, children) =>
          if (PropMap.lookup d "type").getD "" = "" then
            .error "missing required field: type"
          else if (PropMap.lookup d "id").isSome ∧ (PropMap.lookup d "id").getD "" = "" then
            .error "id cannot be empty if present"
          else validateGobChildren children
termination_by og => sizeOf og
decreasing_by
  simp_wf
  have hg1 : 1 ≤ sizeOf g := by
    cases g with
    | nil => simp
    | cons hd tl => simp; omega
  have hsub : ∀ (gg : GobStream) (v : GobValue),
      GobStream.lookup gg "Children" = some v → sizeOf v < sizeOf gg := by
    intro gg
    induction gg with
    | nil => intro v hv; simp [GobStream.lookup] at hv
    | cons hd tl ih =>
        intro v hv
        obtain ⟨k', v'⟩ := hd
        by_cases hk : k' = "Children"
        · simp [GobStream.lookup, hk] at hv
          subst hv
          simp
          omega
        · simp [GobStream.lookup, hk] at hv
          have := ih v hv
          simp
          omega
  have h2 := congrArg Prod.snd _h
  simp only [decodeGobTemp] at h2
  have hkey : sizeOf children ≤ sizeOf g := by
    rcases hl : GobStream.lookup g "Children" with _ | v
    · rw [hl] at h2
      simp at h2
      subst h2
      simpa using hg1
    · rw [hl] at h2
      have hs := hsub g v hl
      cases v with
      | gStr s => simp at h2; subst h2; simpa using hg1
      | gStrMap m => simp at h2; subst h2; simpa using hg1
      | gBytesList l =>
          simp at h2
          subst h2
          simp at hs
          omega
  simp
  omega

/-- The recursive child validation loop of `isValidAtomGob`
(src/functions.go:565-569). -/
def validateGobChildren : List (Option GobStream) → Except String Unit
  | [] => .ok ()
  | c :: rest =>
      match isValidAtomGob c with
      | .error e => .error ("invalid child: " ++ e)
      | .ok () => validateGobChildren rest
termination_by l => sizeOf l
decreasing_by
  all_goals simp_wf <;> omega

end

mutual

/-- `GobToAtom` (src/functions.go:475-516): validates the data with
`isValidAtomGob`, decodes the `{Data, Children}` struct, creates an atom of
the type found in the data map (id generation is the external `gen`), copies
every data entry into the properties with `Set`, and recursively decodes and
adds the children.  The impossible decode branch after a successful
validation maps to the Go branch "unexpected error during gob decode". -/
def gobToAtom (gen : String) : Option GobStream → Except String Atom
  | none =>
      match isValidAtomGob none with
      | .error e => .error ("invalid gob data: " ++ e)
      | .ok () => .error "unexpected error during gob decode"
  | some g =>
      match isValidAtomGob (some g) with
      | .error e => .error ("invalid gob data: " ++ e)
      | .ok () =>
          match _h : decodeGobTemp g with
          | (none, _) => .error "unexpected error during gob decode"
          | (some d, children) =>
              let atomType := (PropMap.lookup d "type").getD ""
              let atom := newAtom atomType none gen
              let atom := d.foldl (fun acc kv => acc.set kv.1 kv.2) atom
              gobChildrenToAtom gen children atom
termination_by og => sizeOf og
decreasing_by
  simp_wf
  have hg1 : 1 ≤ sizeOf g := by
    cases g with
    | nil => simp
    | cons hd tl => simp; omega
  have hsub : ∀ (gg : GobStream) (v : GobValue),
      GobStream.lookup gg "Children" = some v → sizeOf v < sizeOf gg := by
    intro gg
    induction gg with
    | nil => intro v hv; simp [GobStream.lookup] at hv
    | cons hd tl ih =>
        intro v hv
        obtain ⟨k', v'⟩ := hd
        by_cases hk : k' = "Children"
        · simp [GobStream.lookup, hk] at hv
          subst hv
          simp
          omega
        · simp [GobStream.lookup, hk] at hv
          have := ih v hv
          simp
          omega
  have h2 := congrArg Prod.snd _h
  simp only [decodeGobTemp] at h2
  have hkey : sizeOf children ≤ sizeOf g := by
    rcases hl : GobStream.lookup g "Children" with _ | v
    · rw [hl] at h2
      simp at h2
      subst h2
      simpa using hg1
    · rw [hl] at h2
      have hs := hsub g v hl
      cases v with
      | gStr s => simp at h2; subst h2; simpa using hg1
      | gStrMap m => simp at h2; subst h2; simpa using hg1
      | gBytesList l =>
          simp at h2
          subst h2
          simp at hs
          omega
  simp
  omega

/-- The recursive children loop of `GobToAtom` (src/functions.go:506-513). -/
def gobChildrenToAtom (gen : String) : List (Option GobStream) → Atom → Except String Atom
  | [], a => .ok a
  | c :: rest, a =>
      match gobToAtom gen c with
      | .error e => .error ("failed to decode child: " ++ e)
      | .ok child => gobChildrenToAtom gen rest (a.childAdd (some child))
termination_by l _ => sizeOf l
decreasing_by
  all_goals simp_wf <;> omega

end

/-- The mutable stores backing one atom's collections, for verifying the
defensive-copy contract: Go maps and slices are references into a heap;
`maps` holds `map[string]string` values, `slices` holds `[]AtomInterface`
values, each addressed by its index. -/
structure HeapState where
  maps : List PropMap
  slices : List (List (Option Atom))
deriving Repr

/-- An atom whose collections live on the heap: `propsAddr` is the reference
held in the `properties` field (`none` for Go's nil map), `childrenAddr` the
reference held in the `children` field. -/
structure AtomRefState where
  propsAddr : Option Nat
  childrenAddr : Nat
deriving Repr

/-- `Atom.Get` read through the heap. -/
def heapGet (h : HeapState) (a : AtomRefState) (k : String) : String :=
  match a.propsAddr with
  | none => ""
  | some p => (PropMap.lookup ((h.maps[p]?).getD []) k).getD ""

/-- `Atom.Has` read through the heap. -/
def heapHas (h : HeapState) (a : AtomRefState) (k : String) : Bool :=
  match a.propsAddr with
  | none => false
  | some p => (PropMap.lookup ((h.maps[p]?).getD []) k).isSome

/-- `Atom.GetAll` (src/atom.go:168-179) through the heap: nil store returns
nil; otherwise a fresh cell is allocated (`make` at src/atom.go:174), the
entries are copied into it, and its address is returned. -/
def heapGetAll (h : HeapState) (a : AtomRefState) : HeapState × Option Nat :=
  match a.propsAddr with
  | none => (h, none)
  | some p =>
      let m := (h.maps[p]?).getD []
      ({ h with maps := h.maps ++ [m] }, some h.maps.length)

/-- The children slice as the atom sees it through the heap. -/
def heapChildrenList (h : HeapState) (a : AtomRefState) : List (Option Atom) :=
  (h.slices[a.childrenAddr]?).getD []

/-- `Atom.ChildrenLength` through the heap. -/
def heapChildrenLength (h : HeapState) (a : AtomRefState) : Nat :=
  (heapChildrenList h a).length

/-- `Atom.ChildrenGet` (src/atom.go:235-241) through the heap: a fresh cell
is allocated (`make` at src/atom.go:238), the elements are copied into it,
and its address is returned. -/
def heapChildrenGet (h : HeapState) (a : AtomRefState) : HeapState × Nat :=
  let s := (h.slices[a.childrenAddr]?).getD []
  ({ h with slices := h.slices ++ [s] }, h.slices.length)

/-- A caller mutating the map cell at `addr` to arbitrary new contents
(covers adds, removes and changes of entries through the returned copy). -/
def heapWriteMap (h : HeapState) (addr : Nat) (m : PropMap) : HeapState :=
  { h with maps := h.maps.set addr m }

/-- A caller mutating the slice cell at `addr` to arbitrary new contents. -/
def heapWriteSlice (h : HeapState) (addr : Nat) (s : List (Option Atom)) : HeapState :=
  { h with slices := h.slices.set addr s }

/-- `JSONToAtoms` (src/functions.go:91-141), to the depth its early returns
need: empty input yields an empty list; an input of length at least 2 whose
first and last byte are the double quote is treated as a JSON string literal
and yields an empty list before any parsing.  Everything past these guards
(`isValidAtomJSON`, `json.Unmarshal`, the conversion loop) is the abstract
continuation `rest`; the input is modelled as its characters (the guard
inspects bytes, which coincides with characters for the ASCII quote). -/
def jsonToAtoms (rest : List Char → Except String (List Atom))
    (s : List Char) : Except String (List Atom) :=
  if s = [] then .ok []
  else if 2 ≤ s.length ∧ s.head? = some '"' ∧ s.getLast? = some '"' then .ok []
  else rest s

theorem PropMap.lookup_insert (m : PropMap) (k v : String) :
    PropMap.lookup (PropMap.insert m k v) k = some v := by
  induction m with
  | nil => simp [PropMap.insert, PropMap.lookup]
  | cons hd tl ih =>
      obtain ⟨k', v'⟩ := hd
      by_cases h : k' = k
      · simp [PropMap.insert, PropMap.lookup, h]
      · simp [PropMap.insert, PropMap.lookup, h, ih]

theorem PropMap.lookup_erase (m : PropMap) (k : String) :
    PropMap.lookup (PropMap.erase m k) k = none := by
  induction m with
  | nil => simp [PropMap.erase, PropMap.lookup]
  | cons hd tl ih =>
      obtain ⟨k', v'⟩ := hd
      by_cases h : k' = k
      · simp [PropMap.erase, h, ih]
      · simp [PropMap.erase, PropMap.lookup, h, ih]

/-- C7: for every atom `a`, key `k` and value `v`: after `a.Set(k, v)`,
`a.Get(k)` returns `v`; after `a.Remove(k)`, `a.Get(k)` returns the empty
string and `a.Has(k)` returns `false` — whether or not the property store was
previously initialized (the nil-map case is the `none` branch of
`Atom.properties`). -/
theorem set_get_remove_has_round_trip (a : Atom) (k v : String) :
    (a.set k v).get k = v ∧ (a.remove k).get k = "" ∧ (a.remove k).has k = false := by
  obtain ⟨i, t, p, c⟩ := a
  refine ⟨?_, ?_, ?_⟩
  · simp [Atom.set, Atom.get, Atom.properties, PropMap.lookup_insert]
  · cases p with
    | none => simp [Atom.remove, Atom.get, Atom.properties]
    | some m => simp [Atom.remove, Atom.get, Atom.properties, PropMap.lookup_erase]
  · cases p with
    | none => simp [Atom.remove, Atom.has, Atom.properties]
    | some m => simp [Atom.remove, Atom.has, Atom.properties, PropMap.lookup_erase]

/-- C5 counterexample: `ChildrenAdd` does not filter nil entries.  Appending
`[child, nil]` to an atom with no children stores `[child, nil]`, not the
claimed `[child]`: the stored list retains the nil entry and `ChildrenGet`
returns it. -/
theorem childrenAdd_keeps_nil_counterexample :
    ((Atom.mk "parent" "container" none []).childrenAdd
        [some (Atom.mk "child" "item" none []), none]).childrenGet
      = [some (Atom.mk "child" "item" none []), none] ∧
    ((Atom.mk "parent" "container" none []).childrenAdd
        [some (Atom.mk "child" "item" none []), none]).childrenGet
      ≠ [some (Atom.mk "child" "item" none [])] := by
  constructor
  · rfl
  · intro h
    have h2 := congrArg List.length h
    simp [Atom.childrenAdd, Atom.childrenGet, Atom.children] at h2

/-- C5 amended: `ChildrenSet` stores exactly the non-nil entries of its
argument, in order, so after `ChildrenSet` the child list never contains a nil
entry; `ChildrenAdd`, by contrast, appends the given list as-is, nil entries
included. -/
theorem childrenSet_filters_childrenAdd_appends (a : Atom) (cs : List (Option Atom)) :
    (a.childrenSet cs).childrenGet = cs.filter Option.isSome ∧
    (a.childrenSet cs).childrenGet.all Option.isSome = true ∧
    (a.childrenAdd cs).childrenGet = a.childrenGet ++ cs := by
  obtain ⟨i, t, p, c⟩ := a
  refine ⟨rfl, ?_, rfl⟩
  simp [Atom.childrenSet, Atom.childrenGet, Atom.children, List.all_eq_true,
    List.mem_filter]

mutual

theorem findAtomsByType_eq_filter_preorder (a : Atom) (t : String) :
    findAtomsByType (some a) t = (preorder a).filter (fun x => x.atomType == t) := by
  match a with
  | .mk i ty p cs =>
    rw [findAtomsByType, preorder, List.filter]
    rw [findAtomsInChildren_eq_filter_preorder cs t]
    by_cases h : ty = t
    · have hb : (ty == t) = true := by simp [h]
      simp [Atom.atomType, hb, h]
    · have hb : (ty == t) = false := by simp [h]
      simp [Atom.atomType, hb, h]

theorem findAtomsInChildren_eq_filter_preorder (cs : List (Option Atom)) (t : String) :
    findAtomsInChildren cs t = (preorderChildren cs).filter (fun x => x.atomType == t) := by
  match cs with
  | [] => rw [findAtomsInChildren, preorderChildren]; rfl
  | none :: rest =>
      rw [findAtomsInChildren, preorderChildren, findAtomsByType,
        findAtomsInChildren_eq_filter_preorder rest t]
      rfl
  | some c :: rest =>
      rw [findAtomsInChildren, preorderChildren, List.filter_append,
        findAtomsByType_eq_filter_preorder c t,
        findAtomsInChildren_eq_filter_preorder rest t]

end

theorem checkTopLevelKeys_isOk_false {m : AMap} {k : String} {v : Value}
    (hmem : (k, v) ∈ m) (hbad : allowedTopLevelKey k = false) :
    (checkTopLevelKeys m).isOk = false := by
  induction m with
  | nil => simp at hmem
  | cons hd tl ih =>
      obtain ⟨k', v'⟩ := hd
      rw [List.mem_cons] at hmem
      cases hk : allowedTopLevelKey k' with
      | true =>
          rcases hmem with heq | hmem2
          · rw [Prod.mk.injEq] at heq
            rw [heq.1] at hbad
            rw [hbad] at hk
            exact absurd hk (by simp)
          · simp [checkTopLevelKeys, hk, ih hmem2]
      | false => simp [checkTopLevelKeys, hk, Except.isOk, Except.toBool]

theorem checkPropValues_isOk_false {pm : List (String × Value)} {k : String}
    {v : Value} (hmem : (k, v) ∈ pm) (hbad : isScalarValue v = false) :
    (checkPropValues pm).isOk = false := by
  induction pm with
  | nil => simp at hmem
  | cons hd tl ih =>
      obtain ⟨k', v'⟩ := hd
      rw [List.mem_cons] at hmem
      cases hk : isScalarValue v' with
      | true =>
          rcases hmem with heq | hmem2
          · rw [Prod.mk.injEq] at heq
            rw [heq.2] at hbad
            rw [hbad] at hk
            exact absurd hk (by simp)
          · simp [checkPropValues, hk, ih hmem2]
      | false => simp [checkPropValues, hk, Except.isOk, Except.toBool]

/-- C1: decoding an atom's own binary encoding always fails: `ToGob` writes
the fields `ID`, `Type`, `Properties`, `Children`, while `GobToAtom`
(through `isValidAtomGob`) decodes a struct with fields `Data` and
`Children`; gob matches fields by name, so the `Data` map stays nil and
validation rejects the stream ("data map cannot be nil") for every atom and
every id generator — the round trip claimed by the spec and by the
package's own tests never succeeds. -/
theorem gobToAtom_cannot_decode_toGob (gen : String) (a : Atom) :
    (gobToAtom gen (some a.toGob)).isOk = false := by
  obtain ⟨i, t, p, cs⟩ := a
  simp [gobToAtom, isValidAtomGob, decodeGobTemp, GobStream.lookup, Atom.toGob,
    Except.isOk, Except.toBool]

/-- C2: `MapToAtom` does not require `id`: on `{"type": "x"}` it succeeds,
returning an atom whose id is freshly generated and whose type is `"x"` —
although the package's own test (`TestMapToAtom`, case "missing id") and the
function's doc comment demand an error.  The nil-map part of the claim does
hold: `MapToAtom(nil)` errors. -/
theorem mapToAtom_missing_id_accepted :
    (mapToAtom "generated-id" (some [("type", Value.vStr "x")])).isOk = true ∧
    (mapToAtom "generated-id" (some [("type", Value.vStr "x")])).map
      (fun a => (a.id, a.atomType)) = .ok ("generated-id", "x") ∧
    (mapToAtom "generated-id" none).isOk = false := by
  refine ⟨?_, ?_, ?_⟩
  · simp [mapToAtom, AMap.lookup, newAtom, collectProps, collectTopLevel,
      Atom.atomType, Atom.setAll, PropMap.insert, stringifyAny, Except.isOk,
      Except.toBool]
    decide
  · simp [mapToAtom, AMap.lookup, newAtom, collectProps, collectTopLevel,
      Atom.atomType, Atom.setAll, PropMap.insert, stringifyAny]
    rfl
  · simp [mapToAtom, Except.isOk, Except.toBool]

/-- C3 counterexample: `MapToAtom` accepts the map
`{"id": "x", "type": "y", "bogusKey": 1}` — the unknown top-level key does
not cause an error; it is stringified and stored as the property
`bogusKey = "1"` (backward compatibility). -/
theorem mapToAtom_unknown_key_counterexample :
    (mapToAtom "g1" (some [("id", Value.vStr "x"), ("type", Value.vStr "y"),
      ("bogusKey", Value.vInt 1)])).isOk = true ∧
    (mapToAtom "g1" (some [("id", Value.vStr "x"), ("type", Value.vStr "y"),
      ("bogusKey", Value.vInt 1)])).map (fun a => a.get "bogusKey")
      = .ok "1" := by
  constructor
  · simp [mapToAtom, AMap.lookup, newAtom, collectProps, collectTopLevel,
      Atom.atomType, Atom.setAll, PropMap.insert, stringifyAny, goFormat,
      Except.isOk, Except.toBool]
    rfl
  · simp [mapToAtom, AMap.lookup, newAtom, collectProps, collectTopLevel,
      Atom.atomType, Atom.setAll, PropMap.insert, stringifyAny, goFormat,
      Atom.get, Atom.properties, PropMap.lookup]
    rfl

/-- C3 amended: a top-level key outside `{id, type, properties, children}`
makes the validator `isValidAtomMap` (applied by `MapToAtoms`) report the map
invalid; `MapToAtom` itself does not reject such a map — it folds the
unknown key into the properties as a stringified value, as the
counterexample's concrete map shows. -/
theorem isValidAtomMap_rejects_unknown_top_level_key
    (m : AMap) (k : String) (v : Value)
    (hmem : (k, v) ∈ m) (hbad : allowedTopLevelKey k = false) :
    (isValidAtomMap (some m)).isOk = false ∧
    (mapToAtom "g1" (some [("id", Value.vStr "x"), ("type", Value.vStr "y"),
      ("bogusKey", Value.vInt 1)])).map (fun a => a.get "bogusKey")
      = .ok "1" := by
  constructor
  · have hko := checkTopLevelKeys_isOk_false hmem hbad
    rw [isValidAtomMap]
    cases hidt : checkIdType m with
    | error e2 => simp [Except.isOk, Except.toBool]
    | ok u =>
        cases hkt : checkTopLevelKeys m with
        | error e3 => simp [Except.isOk, Except.toBool]
        | ok u2 => rw [hkt] at hko; simp [Except.isOk, Except.toBool] at hko
  · simp [mapToAtom, AMap.lookup, newAtom, collectProps, collectTopLevel,
      Atom.atomType, Atom.setAll, PropMap.insert, stringifyAny, goFormat,
      Atom.get, Atom.properties, PropMap.lookup]
    rfl

/-- C3 witness: the amended theorem applied to the concrete map
`{"id": "x", "type": "y", "bogusKey": 1}` with the offending key
`bogusKey`. -/
theorem isValidAtomMap_rejects_unknown_top_level_key_witness :
    (isValidAtomMap (some [("id", Value.vStr "x"), ("type", Value.vStr "y"),
      ("bogusKey", Value.vInt 1)])).isOk = false ∧
    (mapToAtom "g1" (some [("id", Value.vStr "x"), ("type", Value.vStr "y"),
      ("bogusKey", Value.vInt 1)])).map (fun a => a.get "bogusKey")
      = .ok "1" :=
  isValidAtomMap_rejects_unknown_top_level_key
    [("id", Value.vStr "x"), ("type", Value.vStr "y"), ("bogusKey", Value.vInt 1)]
    "bogusKey" (Value.vInt 1) (List.Mem.tail _ (List.Mem.tail _ (List.Mem.head _)))
    (by decide)

/-- C4 counterexample: `MapToAtom` accepts a map whose `properties` submap
holds a nested map value — there is no rejection of non-scalar property
values in `MapToAtom`; the value is stringified via `%v`. -/
theorem mapToAtom_non_scalar_property_counterexample :
    (mapToAtom "g1" (some [("id", Value.vStr "x"), ("type", Value.vStr "y"),
      ("properties", Value.vMap [("p", Value.vMap [("deep", Value.vStr "z")])])])).isOk
      = true := by
  simp [mapToAtom, AMap.lookup, newAtom, collectProps, collectTopLevel,
    Atom.atomType, Atom.setAll, PropMap.insert, stringifyAny, goFormat,
    goFormatEntries, Except.isOk, Except.toBool]
  rfl

/-- C4 amended: a non-scalar value inside the `properties` submap makes the
validator `isValidAtomMap` report the map invalid, while `MapToAtom` itself
never rejects a property value — it stringifies everything, and in
particular converts non-string scalars to their string form
(`7 ↦ "7"`, `true ↦ "true"`). -/
theorem isValidAtomMap_rejects_non_scalar_property
    (m : AMap) (pm : List (String × Value)) (k : String) (v : Value)
    (hlk : AMap.lookup m "properties" = some (.vMap pm))
    (hmem : (k, v) ∈ pm) (hbad : isScalarValue v = false) :
    (isValidAtomMap (some m)).isOk = false ∧
    (mapToAtom "g2" (some [("id", Value.vStr "x"), ("type", Value.vStr "y"),
      ("properties", Value.vMap [("n", Value.vInt 7), ("b", Value.vBool true)])])).map
      (fun a => (a.get "n", a.get "b")) = .ok ("7", "true") := by
  constructor
  · have hko := checkPropValues_isOk_false hmem hbad
    rw [isValidAtomMap]
    cases hidt : checkIdType m with
    | error e2 => simp [Except.isOk, Except.toBool]
    | ok u =>
        cases hkt : checkTopLevelKeys m with
        | error e3 => simp [Except.isOk, Except.toBool]
        | ok u2 =>
            cases hps : checkPropsShape m with
            | error e4 => simp [Except.isOk, Except.toBool]
            | ok u3 =>
                rw [checkPropsShape, hlk] at hps
                simp only [] at hps
                rw [hps] at hko
                simp [Except.isOk, Except.toBool] at hko
  · simp [mapToAtom, AMap.lookup, newAtom, collectProps, collectTopLevel,
      Atom.atomType, Atom.setAll, PropMap.insert, stringifyAny, goFormat,
      Atom.get, Atom.properties, PropMap.lookup]
    rfl

/-- C4 witness: the amended theorem applied to the concrete map whose
`properties` holds the nested map `{"p": {"deep": "z"}}`. -/
theorem isValidAtomMap_rejects_non_scalar_property_witness :
    (isValidAtomMap (some [("id", Value.vStr "x"), ("type", Value.vStr "y"),
      ("properties", Value.vMap [("p", Value.vMap [("deep", Value.vStr "z")])])])).isOk
      = false ∧
    (mapToAtom "g2" (some [("id", Value.vStr "x"), ("type", Value.vStr "y"),
      ("properties", Value.vMap [("n", Value.vInt 7), ("b", Value.vBool true)])])).map
      (fun a => (a.get "n", a.get "b")) = .ok ("7", "true") :=
  isValidAtomMap_rejects_non_scalar_property
    [("id", Value.vStr "x"), ("type", Value.vStr "y"),
      ("properties", Value.vMap [("p", Value.vMap [("deep", Value.vStr "z")])])]
    [("p", Value.vMap [("deep", Value.vStr "z")])]
    "p" (Value.vMap [("deep", Value.vStr "z")]) rfl (List.Mem.head _) (by decide)


theorem toMapChildren_eq_filterMap (cs : List (Option Atom)) :
    toMapChildren cs = (cs.filterMap id).map (fun c => Value.vMap c.toMap) := by
  induction cs with
  | nil => simp [toMapChildren]
  | cons hd tl ih =>
      cases hd with
      | none => simp [toMapChildren, ih]
      | some c => simp [toMapChildren, ih]

theorem lookup_propsWithoutReserved_reserved (p : Option PropMap) :
    PropMap.lookup (propsWithoutReserved p) "id" = none ∧
    PropMap.lookup (propsWithoutReserved p) "type" = none := by
  cases p with
  | none => simp [propsWithoutReserved, PropMap.lookup]
  | some m =>
      simp only [propsWithoutReserved]
      induction m with
      | nil => simp [PropMap.lookup]
      | cons hd tl ih =>
          obtain ⟨k, v⟩ := hd
          by_cases hid : k = "id"
          · simpa [List.filter, hid] using ih
          · by_cases hty : k = "type"
            · simpa [List.filter, hty] using ih
            · simp only [List.filter]
              have : (!(k == "id") && !(k == "type")) = true := by
                simp [hid, hty]
              rw [this]
              simp only [PropMap.lookup]
              have h1 : ¬(k = "id") := hid
              have h2 : ¬(k = "type") := hty
              rw [if_neg h1, if_neg h2]
              exact ih

/-- C8: for every atom, `ToMap` yields a map whose `id` and `type` entries
hold the atom's id and type, whose `children` entry is always present and
holds the recursively converted non-nil children in order, and whose
`properties` entry is present exactly when the property map minus the
reserved keys `id`/`type` is non-empty — and that submap never contains the
reserved keys. -/
theorem toMap_shape (a : Atom) :
    AMap.lookup a.toMap "id" = some (.vStr a.id) ∧
    AMap.lookup a.toMap "type" = some (.vStr a.atomType) ∧
    AMap.lookup a.toMap "children"
      = some (.vList ((a.childrenGet.filterMap id).map (fun c => Value.vMap c.toMap))) ∧
    AMap.lookup a.toMap "properties"
      = (if propsWithoutReserved a.properties = [] then none
         else some (.vMap ((propsWithoutReserved a.properties).map
            (fun kv => (kv.1, Value.vStr kv.2))))) ∧
    PropMap.lookup (propsWithoutReserved a.properties) "id" = none ∧
    PropMap.lookup (propsWithoutReserved a.properties) "type" = none := by
  obtain ⟨i, t, p, cs⟩ := a
  have hres := lookup_propsWithoutReserved_reserved p
  rw [Atom.toMap]
  by_cases hp : 0 < (propsWithoutReserved p).length
  · have hne : propsWithoutReserved p ≠ [] := by
      intro h0
      rw [h0] at hp
      simp at hp
    refine ⟨?_, ?_, ?_, ?_, hres.1, hres.2⟩
    · simp [AMap.lookup, hp, Atom.id, Atom.atomType]
    · simp [AMap.lookup, hp, Atom.id, Atom.atomType]
    · simp [AMap.lookup, hp, toMapChildren_eq_filterMap, Atom.childrenGet, Atom.children]
    · simp [AMap.lookup, hp, Atom.properties, if_neg hne, hne]
  · have heq : propsWithoutReserved p = [] := by
      cases h0 : propsWithoutReserved p with
      | nil => rfl
      | cons x xs => rw [h0] at hp; simp at hp
    refine ⟨?_, ?_, ?_, ?_, hres.1, hres.2⟩
    · simp [AMap.lookup, hp, Atom.id, Atom.atomType]
    · simp [AMap.lookup, hp, Atom.id, Atom.atomType]
    · simp [AMap.lookup, hp, toMapChildren_eq_filterMap, Atom.childrenGet, Atom.children]
    · simp [AMap.lookup, hp, Atom.properties, if_pos heq, heq]

/-- C9: `GetAll` and `ChildrenGet` hand out fresh copies: the returned map
and slice live in cells freshly allocated past the end of the heap (so they
alias no existing cell, in particular not the atom's own), and overwriting
the returned cell with arbitrary new contents leaves every subsequent `Get`,
`Has`, children listing and `ChildrenLength` of the atom unchanged. -/
theorem getAll_childrenGet_copy_isolation
    (h : HeapState) (a : AtomRefState) (p : Nat)
    (hp : a.propsAddr = some p) (hpl : p < h.maps.length)
    (hcl : a.childrenAddr < h.slices.length)
    (m' : PropMap) (s' : List (Option Atom)) (k : String) :
    (heapGetAll h a).2 = some h.maps.length ∧
    heapGet (heapWriteMap (heapGetAll h a).1 h.maps.length m') a k = heapGet h a k ∧
    heapHas (heapWriteMap (heapGetAll h a).1 h.maps.length m') a k = heapHas h a k ∧
    (heapChildrenGet h a).2 = h.slices.length ∧
    heapChildrenList (heapWriteSlice (heapChildrenGet h a).1 h.slices.length s') a
      = heapChildrenList h a ∧
    heapChildrenLength (heapWriteSlice (heapChildrenGet h a).1 h.slices.length s') a
      = heapChildrenLength h a := by
  have hmaps : (h.maps ++ [m'])[p]? = h.maps[p]? := by
    rw [List.getElem?_append, if_pos hpl]
  have hslices : (h.slices ++ [s'])[a.childrenAddr]? = h.slices[a.childrenAddr]? := by
    rw [List.getElem?_append, if_pos hcl]
  refine ⟨?_, ?_, ?_, ?_, ?_, ?_⟩
  · simp [heapGetAll, hp]
  · simp [heapGetAll, heapWriteMap, heapGet, hp, hmaps]
  · simp [heapGetAll, heapWriteMap, heapHas, hp, hmaps]
  · simp [heapChildrenGet]
  · simp [heapChildrenGet, heapWriteSlice, heapChildrenList, hslices]
  · simp [heapChildrenGet, heapWriteSlice, heapChildrenLength, heapChildrenList,
      hslices]

/-- C9 witness: the isolation theorem applied to a one-cell heap holding the
property `("k", "v")` and a one-child slice; overwriting the copies with
`[("k", "w")]` and `[]` changes nothing the atom reads. -/
theorem getAll_childrenGet_copy_isolation_witness :
    (heapGetAll ⟨[[("k", "v")]], [[none]]⟩ ⟨some 0, 0⟩).2 = some 1 ∧
    heapGet (heapWriteMap (heapGetAll ⟨[[("k", "v")]], [[none]]⟩ ⟨some 0, 0⟩).1 1
      [("k", "w")]) ⟨some 0, 0⟩ "k"
      = heapGet ⟨[[("k", "v")]], [[none]]⟩ ⟨some 0, 0⟩ "k" ∧
    heapHas (heapWriteMap (heapGetAll ⟨[[("k", "v")]], [[none]]⟩ ⟨some 0, 0⟩).1 1
      [("k", "w")]) ⟨some 0, 0⟩ "k"
      = heapHas ⟨[[("k", "v")]], [[none]]⟩ ⟨some 0, 0⟩ "k" ∧
    (heapChildrenGet ⟨[[("k", "v")]], [[none]]⟩ ⟨some 0, 0⟩).2 = 1 ∧
    heapChildrenList (heapWriteSlice
      (heapChildrenGet ⟨[[("k", "v")]], [[none]]⟩ ⟨some 0, 0⟩).1 1 []) ⟨some 0, 0⟩
      = heapChildrenList ⟨[[("k", "v")]], [[none]]⟩ ⟨some 0, 0⟩ ∧
    heapChildrenLength (heapWriteSlice
      (heapChildrenGet ⟨[[("k", "v")]], [[none]]⟩ ⟨some 0, 0⟩).1 1 []) ⟨some 0, 0⟩
      = heapChildrenLength ⟨[[("k", "v")]], [[none]]⟩ ⟨some 0, 0⟩ :=
  getAll_childrenGet_copy_isolation ⟨[[("k", "v")]], [[none]]⟩ ⟨some 0, 0⟩ 0
    rfl (by decide) (by decide) [("k", "w")] [] "k"

/-- C10: any input of length at least 2 whose first and last characters are
the double quote makes `JSONToAtoms` return an empty atom list and no error,
whatever the rest of the parsing pipeline (`rest`) would do with the input:
the early string-literal guard returns before any parsing. -/
theorem jsonToAtoms_quoted_input_yields_empty
    (rest : List Char → Except String (List Atom)) (s : List Char)
    (hlen : 2 ≤ s.length) (hhead : s.head? = some '"')
    (hlast : s.getLast? = some '"') :
    jsonToAtoms rest s = .ok [] := by
  have hne : s ≠ [] := by
    intro hnil
    subst hnil
    simp at hlen
  unfold jsonToAtoms
  rw [if_neg hne, if_pos ⟨hlen, hhead, hlast⟩]

/-- C10 witness: the guard theorem applied to the non-JSON input `"abc"`
(quotes included) and a continuation that would reject it: the result is
still the empty list with no error. -/
theorem jsonToAtoms_quoted_input_yields_empty_witness :
    jsonToAtoms (fun _ => .error "not reached")
      ['"', 'a', 'b', 'c', '"'] = .ok [] :=
  jsonToAtoms_quoted_input_yields_empty (fun _ => .error "not reached")
    ['"', 'a', 'b', 'c', '"'] (by decide) (by decide) (by decide)

/-- C6: `FindAtomsByType` returns, in pre-order (root before children,
children left to right, each subtree fully before the next sibling), exactly
the atoms of the requested type: it equals the pre-order listing filtered by
type.  A nil root yields the empty list (hence also when nothing matches the
result is empty).  On the spec's example tree
`root -> [a -> [a1, a2], b -> [b1]]` with `a1`, `b`, `b1` of type "target" it
returns `[a1, b, b1]`. -/
theorem findAtomsByType_pre_order_correct :
    (∀ t, findAtomsByType none t = []) ∧
    (∀ a t, findAtomsByType (some a) t
      = (preorder a).filter (fun x => x.atomType == t)) ∧
    findAtomsByType (some rootSample) "target" = [a1Sample, bSample, b1Sample] := by
  refine ⟨fun _ => by simp [findAtomsByType],
    fun a t => findAtomsByType_eq_filter_preorder a t, ?_⟩
  simp [findAtomsByType, findAtomsInChildren, rootSample, aSample, a1Sample,
    a2Sample, bSample, b1Sample]

end Omni
